import Mathlib

/-!
Verification of the BSON document / query builder core of the `ejdb.rs`
bindings. The definitions below are shallow embeddings of the Rust source:
`src/database/query.rs` (query and hints builders), `src/utils/bson.rs`
(`BsonNumber`), `src/types.rs` (`OidHexDisplay`, `PartialSave`),
`src/database/mod.rs` (`Collection::save_all`), `src/database/indices.rs`
(index builder), plus a byte-level BSON codec modelled from the
specification (the concrete codec lives in the external `bson` crate).
-/

namespace EjdbRs

/-! ## BSON value model

Mirrors the `bson` crate's `Bson` enum as used by the query builder.
Floating point payloads are represented by their 64-bit patterns (the
builder only moves float values around, it never computes with them). -/

inductive Bson where
  | floatingPoint (bits : Nat)
  | string (s : String)
  | array (elems : List Bson)
  | document (entries : List (String × Bson))
  | boolean (b : Bool)
  | null
  | regExp (pat : String) (opts : String)
  | javaScriptCode (code : String)
  | javaScriptCodeWithScope (code : String) (scope : List (String × Bson))
  | i32 (v : Int)
  | i64 (v : Int)
  | timeStamp (v : Int)
  | binary (subtype : Nat) (data : List Nat)
  | objectId (bytes : List Nat)
  | utcDatetime (ms : Int)

/-- Is this value a `Bson::Document`? -/
def Bson.isDocValue : Bson → Bool
  | .document _ => true
  | _ => false

/-- The `bson` crate's `Document`: an ordered key-to-value mapping backed by
a linked hash map; insertion order is preserved and significant. -/
abbrev Document := List (String × Bson)

/-- `LinkedHashMap::contains_key`. -/
def docContains (d : Document) (k : String) : Bool :=
  d.any (fun e => e.1 == k)

/-- In-place update of every entry keyed `k` (there is at most one in a
well-formed document): the entry keeps its position, its value becomes `v`. -/
def docReplace (d : Document) (k : String) (v : Bson) : Document :=
  d.map (fun e => if e.1 == k then (k, v) else e)

/-- `LinkedHashMap::insert`: if the key is already present its value is
updated in place (the entry keeps its original position); otherwise the new
entry is appended at the end. -/
def docInsert (d : Document) (k : String) (v : Bson) : Document :=
  if docContains d k then docReplace d k v
  else d ++ [(k, v)]

/-- `LinkedHashMap::get`. -/
def docGet (d : Document) (k : String) : Option Bson :=
  (d.find? (fun e => e.1 == k)).map (fun e => e.2)

/-- Number of entries of `d` carrying the key `k` (used to state the
"at most one entry per operator key" invariant). -/
def docCountKey (d : Document) (k : String) : Nat :=
  (d.filter (fun e => e.1 == k)).length

/-! ## `BsonNumber` (src/utils/bson.rs)

The trait has one impl per Rust numeric type; the caller selects the exact
BSON numeric type by the argument type.  `f32` is widened to `f64` by the
source (`self as f64`); its payload here is the resulting 64-bit pattern. -/

inductive BsonNumber where
  | f32 (bits : Nat)
  | f64 (bits : Nat)
  | i32 (v : Int)
  | i64 (v : Int)

def BsonNumber.to_bson : BsonNumber → Bson
  | .f32 bits => .floatingPoint bits
  | .f64 bits => .floatingPoint bits
  | .i32 v => .i32 v
  | .i64 v => .i64 v

/-! ## Query builder (src/database/query.rs) -/

structure Query where
  query : Document

namespace Query

def new : Query := ⟨[]⟩

/-- `Query::and`: inserts a fresh array of the sub-query documents at
`$and` (replacing any existing value at that key). -/
def and (q : Query) (queries : List Document) : Query :=
  ⟨docInsert q.query "$and" (.array (queries.map .document))⟩

/-- `Query::or`. -/
def or (q : Query) (queries : List Document) : Query :=
  ⟨docInsert q.query "$or" (.array (queries.map .document))⟩

/-- `Query::add_subkey_at_key` (via `modify_document_at_key`): if `key`
currently maps to a document, insert `(subkey, value)` into it in place;
otherwise (absent key, or a non-document value) insert a fresh single-entry
document at `key`. -/
def add_subkey_at_key (q : Query) (key subkey : String) (value : Bson) : Query :=
  match docGet q.query key with
  | some (.document d) => ⟨docInsert q.query key (.document (docInsert d subkey value))⟩
  | _ => ⟨docInsert q.query key (.document [(subkey, value)])⟩

/-- `Query::merge_documents_at_key`: if `key` currently maps to a document,
insert every entry of `document` into it in order; otherwise insert
`document` itself at `key`. -/
def merge_documents_at_key (q : Query) (key : String) (document : Document) : Query :=
  match docGet q.query key with
  | some (.document d) =>
      ⟨docInsert q.query key (.document (document.foldl (fun acc e => docInsert acc e.1 e.2) d))⟩
  | _ => ⟨docInsert q.query key (.document document)⟩

def join (q : Query) (key coll : String) : Query :=
  q.add_subkey_at_key "$do" key (.document [("$join", .string coll)])

def add_to_set (q : Query) (key : String) (value : Bson) : Query :=
  q.add_subkey_at_key "$addToSet" key value

def add_to_set_all (q : Query) (key : String) (values : List Bson) : Query :=
  q.add_subkey_at_key "$addToSet" key (.array values)

def unset (q : Query) (key : String) : Query :=
  q.add_subkey_at_key "$unset" key (.string "")

def inc (q : Query) (key : String) (delta : BsonNumber) : Query :=
  q.add_subkey_at_key "$inc" key delta.to_bson

def drop_all (q : Query) : Query :=
  ⟨docInsert q.query "$dropall" (.boolean true)⟩

def set (q : Query) (key : String) (value : Bson) : Query :=
  q.add_subkey_at_key "$set" key value

/-- `Query::set_many`: `self.query.insert("$set", document.into())` —
replaces the whole `$set` value. -/
def set_many (q : Query) (document : Document) : Query :=
  ⟨docInsert q.query "$set" (.document document)⟩

def upsert (q : Query) (key : String) (value : Bson) : Query :=
  q.add_subkey_at_key "$upsert" key value

/-- `Query::upsert_many`: replaces the whole `$upsert` value. -/
def upsert_many (q : Query) (document : Document) : Query :=
  ⟨docInsert q.query "$upsert" (.document document)⟩

def pull (q : Query) (key : String) (value : Bson) : Query :=
  q.add_subkey_at_key "$pull" key value

def pull_all (q : Query) (key : String) (values : List Bson) : Query :=
  q.add_subkey_at_key "$pullAll" key (.array values)

def push (q : Query) (key : String) (value : Bson) : Query :=
  q.add_subkey_at_key "$push" key value

def push_all (q : Query) (key : String) (values : List Bson) : Query :=
  q.add_subkey_at_key "$pushAll" key (.array values)

def rename (q : Query) (key new_key : String) : Query :=
  q.add_subkey_at_key "$rename" key (.string new_key)

/-- `Query::slice`: the limit is an `i64` and is stored as BSON int64. -/
def slice (q : Query) (key : String) (limit : Int) : Query :=
  q.add_subkey_at_key "$do" key (.document [("$slice", .i64 limit)])

/-- `Query::slice_with_offset`: `offset.to_bson()` / `limit.to_bson()`
with both arguments of Rust type `i64`. -/
def slice_with_offset (q : Query) (key : String) (offset limit : Int) : Query :=
  q.add_subkey_at_key "$do" key
    (.document [("$slice", .array [(BsonNumber.i64 offset).to_bson, (BsonNumber.i64 limit).to_bson])])

end Query

/-! ## Field constraints

The Rust source uses a pair of types (`FieldConstraint` holding a name and a
`FieldConstraintData` which is either `Root(Query)` or
`Child(Box<FieldConstraint>)`); here the two are flattened into a single
inductive with the same two shapes. -/

inductive FieldConstraint where
  | root (name : String) (q : Query)
  | child (name : String) (parent : FieldConstraint)

def Query.field (q : Query) (name : String) : FieldConstraint :=
  .root name q

namespace FieldConstraint

/-- `FieldConstraint::process`: at the root, a document value is merged into
the query at the field key via `merge_documents_at_key`, any other value is
inserted directly at the field key; a child wraps the value into a
single-entry document keyed by its name and recurses into the parent. -/
def process (fc : FieldConstraint) (value : Bson) : Query :=
  match fc with
  | .root name q =>
      match value with
      | .document doc => q.merge_documents_at_key name doc
      | value => ⟨docInsert q.query name value⟩
  | .child name parent =>
      parent.process (.document [(name, value)])

def field (fc : FieldConstraint) (name : String) : FieldConstraint :=
  .child name fc

def eq (fc : FieldConstraint) (value : Bson) : Query :=
  fc.process value

def begin (fc : FieldConstraint) (value : String) : Query :=
  fc.process (.document [("$begin", .string value)])

def between (fc : FieldConstraint) (left right : BsonNumber) : Query :=
  fc.process (.document [("$bt", .array [left.to_bson, right.to_bson])])

def gt (fc : FieldConstraint) (value : BsonNumber) : Query :=
  fc.process (.document [("$gt", value.to_bson)])

def gte (fc : FieldConstraint) (value : BsonNumber) : Query :=
  fc.process (.document [("$gte", value.to_bson)])

def lt (fc : FieldConstraint) (value : BsonNumber) : Query :=
  fc.process (.document [("$lt", value.to_bson)])

def lte (fc : FieldConstraint) (value : BsonNumber) : Query :=
  fc.process (.document [("$lte", value.to_bson)])

def exists' (fc : FieldConstraint) (e : Bool) : Query :=
  fc.process (.document [("$exists", .boolean e)])

def elem_match (fc : FieldConstraint) (query : Document) : Query :=
  fc.process (.document [("$elemMatch", .document query)])

def contained_in (fc : FieldConstraint) (values : List Bson) : Query :=
  fc.process (.document [("$in", .array values)])

def not_contained_in (fc : FieldConstraint) (values : List Bson) : Query :=
  fc.process (.document [("$nin", .array values)])

def case_insensitive (fc : FieldConstraint) : FieldConstraint :=
  .child "$icase" fc

def not (fc : FieldConstraint) : FieldConstraint :=
  .child "$not" fc

def str_and (fc : FieldConstraint) (values : List String) : Query :=
  fc.process (.document [("$strand", .array (values.map .string))])

def str_or (fc : FieldConstraint) (values : List String) : Query :=
  fc.process (.document [("$stror", .array (values.map .string))])

end FieldConstraint

def Query.id (q : Query) (value : Bson) : Query :=
  (q.field "_id").eq value

/-! ## Query hints builder (src/database/query.rs) -/

structure QueryHints where
  hints : Document

namespace QueryHints

def new : QueryHints := ⟨[]⟩

def max (h : QueryHints) (n : Int) : QueryHints :=
  ⟨docInsert h.hints "$max" (.i64 n)⟩

def skip (h : QueryHints) (n : Int) : QueryHints :=
  ⟨docInsert h.hints "$skip" (.i64 n)⟩

/-- `QueryHints::add_hint`.  The `value` argument is a Rust `i32`, stored as
BSON int32.  The source's `unreachable!()` arm (key present but bound to a
non-document) is modelled as `none` (a panic). -/
def add_hint (h : QueryHints) (key subkey : String) (value : Int) : Option QueryHints :=
  if ¬ docContains h.hints key then
    some ⟨docInsert h.hints key (.document [(subkey, .i32 value)])⟩
  else
    match docGet h.hints key with
    | some (.document d) => some ⟨docInsert h.hints key (.document (docInsert d subkey (.i32 value)))⟩
    | _ => none

end QueryHints

structure QueryHintsOrderBy where
  hints : QueryHints
  fieldName : String

def QueryHints.order_by (h : QueryHints) (field : String) : QueryHintsOrderBy :=
  ⟨h, field⟩

namespace QueryHintsOrderBy

def add_hint (b : QueryHintsOrderBy) (value : Int) : Option QueryHints :=
  b.hints.add_hint "$orderBy" b.fieldName value

def desc (b : QueryHintsOrderBy) : Option QueryHints :=
  b.add_hint (-1)

def asc (b : QueryHintsOrderBy) : Option QueryHints :=
  b.add_hint 1

end QueryHintsOrderBy

structure QueryHintsField where
  hints : QueryHints
  fieldName : String

def QueryHints.field (h : QueryHints) (field : String) : QueryHintsField :=
  ⟨h, field⟩

namespace QueryHintsField

def add_hint (b : QueryHintsField) (value : Int) : Option QueryHints :=
  b.hints.add_hint "$fields" b.fieldName value

def exclude (b : QueryHintsField) : Option QueryHints :=
  b.add_hint (-1)

def include' (b : QueryHintsField) : Option QueryHints :=
  b.add_hint 1

end QueryHintsField

/-! ## Errors and `Collection::save_all` (src/types.rs, src/database/mod.rs) -/

/-- A 12-byte object identifier (`bson::oid::ObjectId`), as its raw bytes. -/
abbrev ObjectId := List Nat

/-- The library's `Error` enum (src/types.rs).  The `PartialSave` struct is
inlined into its variant: it carries the boxed cause and the vector of
object ids inserted successfully.  Foreign error payloads (`io::Error`,
`bson::EncoderError`, `bson::DecoderError`) are abstracted to their
messages. -/
inductive EjdbError where
  | io (msg : String)
  | bsonEncoding (msg : String)
  | bsonDecoding (msg : String)
  | partialSave (cause : EjdbError) (successful_ids : List ObjectId)
  | other (msg : String)

/-- The loop of `Collection::save_all`: documents are passed one by one to
`save` (the native `Collection::save`, abstracted as a function argument),
each exactly once; ids of successful saves accumulate in `result`; the first
failure stops the loop and returns `Error::PartialSave` carrying the cause
and the ids accumulated so far.  No retry happens anywhere. -/
def save_all_loop (save : Document → Except EjdbError ObjectId) :
    List Document → List ObjectId → Except EjdbError (List ObjectId)
  | [], result => .ok result
  | doc :: docs, result =>
    match save doc with
    | .ok id => save_all_loop save docs (result ++ [id])
    | .error e => .error (.partialSave e result)

/-- `Collection::save_all`. -/
def save_all (save : Document → Except EjdbError ObjectId) (docs : List Document) :
    Except EjdbError (List ObjectId) :=
  save_all_loop save docs []

/-- A concrete `save` used by the C6 witness: succeeds on documents with an
int32 `_id`, fails otherwise. -/
def exampleSave (d : Document) : Except EjdbError ObjectId :=
  match docGet d "_id" with
  | some (.i32 v) => .ok [v.toNat]
  | _ => .error (.other "no id")

/-- The id `exampleSave` assigns to a document it accepts. -/
def exampleIds (d : Document) : ObjectId :=
  match docGet d "_id" with
  | some (.i32 v) => [v.toNat]
  | _ => []

/-! ## Index builder (src/database/indices.rs)

The `JBIDX*` flag constants come from the generated `ejdb-sys` bindings,
which are not part of the sources. -/

/-- Modelled from the spec: `ejdb_sys::JBIDXDROP` (missing generated
binding); EJDB's header defines the index flags as distinct bits. -/
def JBIDXDROP : Nat := 1

/-- Modelled from the spec: `ejdb_sys::JBIDXDROPALL` (missing generated
binding). -/
def JBIDXDROPALL : Nat := 2

/-- Modelled from the spec: `ejdb_sys::JBIDXOP` (missing generated
binding). -/
def JBIDXOP : Nat := 4

/-- Modelled from the spec: `ejdb_sys::JBIDXREBLD` (missing generated
binding). -/
def JBIDXREBLD : Nat := 8

/-- Modelled from the spec: `ejdb_sys::JBIDXNUM` (missing generated
binding). -/
def JBIDXNUM : Nat := 16

/-- Modelled from the spec: `ejdb_sys::JBIDXSTR` (missing generated
binding). -/
def JBIDXSTR : Nat := 32

/-- Modelled from the spec: `ejdb_sys::JBIDXARR` (missing generated
binding). -/
def JBIDXARR : Nat := 64

/-- Modelled from the spec: `ejdb_sys::JBIDXISTR` (missing generated
binding). -/
def JBIDXISTR : Nat := 128

/-- The `Index` builder; the collection handle it borrows is irrelevant to
the flag logic and is omitted. -/
structure Index where
  key : String
  flags : Option Nat

/-- `Collection::index`. -/
def collectionIndex (key : String) : Index :=
  { key := key, flags := none }

namespace Index

def add_flags (i : Index) (flags : Nat) : Index :=
  { i with flags := some (i.flags.getD 0 ||| flags) }

def string (i : Index) (case_sensitive : Bool) : Index :=
  i.add_flags (if case_sensitive then JBIDXSTR else JBIDXISTR)

def number (i : Index) : Index :=
  i.add_flags JBIDXNUM

def array (i : Index) : Index :=
  i.add_flags JBIDXARR

/-- `Index::check_type`: `none` models the panic (`expect` on a missing
flags value, or the failing `assert!` when no type flag is set). -/
def check_type (i : Index) : Option Index :=
  match i.flags with
  | none => none
  | some flags =>
    if [JBIDXSTR, JBIDXISTR, JBIDXNUM, JBIDXARR].any (fun f => flags &&& f != 0) then some i
    else none

/-- `Index::execute` passes `flags` to the native `ejdbsetindex` call; the
model returns the flag word crossing the FFI boundary (`none` models the
panic of the `expect` on missing flags). -/
def execute (i : Index) : Option Nat :=
  i.flags

def set (i : Index) : Option Nat :=
  i.check_type.bind execute

def drop_all (i : Index) : Option Nat :=
  execute { i with flags := some JBIDXDROPALL }

def drop (i : Index) : Option Nat :=
  (i.add_flags JBIDXDROP).check_type.bind execute

def rebuild (i : Index) : Option Nat :=
  (i.add_flags JBIDXREBLD).check_type.bind execute

def optimize (i : Index) : Option Nat :=
  (i.add_flags JBIDXOP).check_type.bind execute

end Index

/-- One call to an index-type builder method. -/
inductive IndexTypeCall where
  | string (case_sensitive : Bool)
  | number
  | array

/-- The flag a type builder call ORs into the index. -/
def callFlag : IndexTypeCall → Nat
  | .string cs => if cs then JBIDXSTR else JBIDXISTR
  | .number => JBIDXNUM
  | .array => JBIDXARR

/-- Applies a sequence of type builder calls to an index builder. -/
def applyIndexTypeCalls (i : Index) : List IndexTypeCall → Index
  | [] => i
  | c :: rest =>
    applyIndexTypeCalls
      (match c with
       | .string cs => i.string cs
       | .number => i.number
       | .array => i.array) rest

/-- Every flag word reachable by at least one type builder call: the
bitwise-ors of the nonempty subsets of the four type flags. -/
def typeFlagCombos : List Nat :=
  [16, 32, 48, 64, 80, 96, 112, 128, 144, 160, 176, 192, 208, 224, 240]

/-! ## Object id hex formatting (src/types.rs) -/

/-- The hex alphabet of `OidHexDisplay` (`b"0123456789abcdef"`). -/
def CHARS : List Char :=
  "0123456789abcdef".toList

/-- `OidHexDisplay`: for every byte write `CHARS[byte >> 4]` then
`CHARS[byte & 0xf]`.  The `getD` default is never used for `u8` bytes since
both indices are below 16. -/
def oidHexDisplay (bytes : List Nat) : String :=
  String.mk (bytes.foldr (fun byte acc =>
    CHARS.getD (byte >>> 4) 'x' :: CHARS.getD (byte &&& 0xf) 'x' :: acc) [])

/-! ## BSON codec, modelled from the spec

`EjdbBsonDocument::from_bson`/`to_bson` (src/ejdb_bson.rs) delegate the
actual serialization to `bson::encode_document` / `bson::decode_document`
of the external `bson` crate, which is absent from the sources.  The codec
below is therefore modelled from the specification's description of the
standard BSON binary layout: 4-byte little-endian total-length prefix, then
per field a 1-byte type tag, a null-terminated key and a type-specific
payload, then a trailing zero byte. -/

namespace Codec

/-- Modelled from the spec: the binary subtype enumeration of the codec
(the `bson` crate's binary subtypes, absent from src). -/
inductive BinSubtype where
  | binary
  | func
  | binaryOld
  | uuid
  | md5
  | user

def BinSubtype.toByte : BinSubtype → Nat
  | .binary => 0
  | .func => 1
  | .binaryOld => 2
  | .uuid => 3
  | .md5 => 5
  | .user => 128

def BinSubtype.fromByte : Nat → Option BinSubtype
  | 0 => some .binary
  | 1 => some .func
  | 2 => some .binaryOld
  | 3 => some .uuid
  | 5 => some .md5
  | 128 => some .user
  | _ => none

mutual
/-- Modelled from the spec: the codec's BSON value model (the concrete
codec lives in the external `bson` crate, absent from the sources): 64-bit
float (represented by its bit pattern), UTF-8 strings and keys as raw byte
sequences, embedded document/array, binary, undefined, 12-byte object id,
boolean, UTC datetime (i64 milliseconds), null, code (optionally paired
with a scope document), int32, timestamp (paired 32-bit), int64. -/
inductive BVal where
  | double (bits : Nat)
  | str (bytes : List Nat)
  | doc (entries : BEntries)
  | arr (elems : BElems)
  | binary (subtype : BinSubtype) (data : List Nat)
  | undefined
  | oid (bytes : List Nat)
  | boolean (b : Bool)
  | utcDatetime (ms : Int)
  | nullValue
  | code (s : List Nat)
  | codeWithScope (s : List Nat) (scope : BEntries)
  | int32 (v : Int)
  | timestamp (inc : Int) (time : Int)
  | int64 (v : Int)

/-- Modelled from the spec: a document as an ordered key/value entry
sequence (insertion order is significant). -/
inductive BEntries where
  | nil
  | cons (key : List Nat) (value : BVal) (rest : BEntries)

/-- Modelled from the spec: an array's ordered element sequence. -/
inductive BElems where
  | nil
  | cons (value : BVal) (rest : BElems)
end

/-- The values of a document's entries, in order (used to decode the
document representation of an array back into the array). -/
def BEntries.values : BEntries → BElems
  | .nil => .nil
  | .cons _ v rest => .cons v rest.values

/-- The standard BSON type tag of each value. -/
def tagOf : BVal → Nat
  | .double _ => 1
  | .str _ => 2
  | .doc _ => 3
  | .arr _ => 4
  | .binary _ _ => 5
  | .undefined => 6
  | .oid _ => 7
  | .boolean _ => 8
  | .utcDatetime _ => 9
  | .nullValue => 10
  | .code _ => 13
  | .codeWithScope _ _ => 15
  | .int32 _ => 16
  | .timestamp _ _ => 17
  | .int64 _ => 18

/-- Little-endian 4-byte encoding of `n % 2^32`. -/
def natToLe4 (n : Nat) : List Nat :=
  [n % 256, n / 256 % 256, n / 65536 % 256, n / 16777216 % 256]

/-- Little-endian 8-byte encoding of `n % 2^64`. -/
def natToLe8 (n : Nat) : List Nat :=
  [n % 256, n / 256 % 256, n / 65536 % 256, n / 16777216 % 256,
   n / 4294967296 % 256, n / 1099511627776 % 256,
   n / 281474976710656 % 256, n / 72057594037927936 % 256]

/-- Reassembles a little-endian byte sequence into a natural number. -/
def leToNat (bytes : List Nat) : Nat :=
  bytes.foldr (fun b acc => b + 256 * acc) 0

/-- Two's-complement little-endian encoding of an `i32`. -/
def encInt32 (v : Int) : List Nat :=
  natToLe4 (v % 4294967296).toNat

/-- Two's-complement little-endian encoding of an `i64`. -/
def encInt64 (v : Int) : List Nat :=
  natToLe8 (v % 18446744073709551616).toNat

/-- Interprets an unsigned 32-bit value as a two's-complement `i32`. -/
def decInt32 (n : Nat) : Int :=
  if n < 2147483648 then (n : Int) else (n : Int) - 4294967296

/-- Interprets an unsigned 64-bit value as a two's-complement `i64`. -/
def decInt64 (n : Nat) : Int :=
  if n < 9223372036854775808 then (n : Int) else (n : Int) - 18446744073709551616

/-- Fuel-driven digit extraction; any fuel exceeding `n` is sufficient. -/
def natDigitsAux : Nat → Nat → List Nat
  | 0, _ => []
  | fuel + 1, n =>
    if n < 10 then [48 + n]
    else natDigitsAux fuel (n / 10) ++ [48 + n % 10]

/-- The decimal digit byte string of `n` (ASCII), used as array index
keys. -/
def natDigits (n : Nat) : List Nat :=
  natDigitsAux (n + 1) n

/-- Encoding errors of the codec (`EncodingError`): a key with an embedded
NUL byte, or a variable-length value whose length prefix does not fit the
positive range of a 4-byte signed prefix. -/
inductive EncErr where
  | keyWithNul
  | oversized

/-- Decoding errors of the codec (`DecodingError`). -/
inductive DecErr where
  | truncated
  | badLength
  | unknownTag (tag : Nat)
  | badSubtype (b : Nat)
  | badBool (b : Nat)

/-- Frames a document body: 4-byte LE total length (the body plus the
5 framing bytes), the body, the trailing zero byte. -/
def mkDocFrame (body : List Nat) : Except EncErr (List Nat) :=
  if body.length + 5 < 2147483648 then .ok (natToLe4 (body.length + 5) ++ body ++ [0])
  else .error .oversized

/-- String payload: int32 byte count including the trailing NUL, the bytes,
the NUL terminator. -/
def encStrPayload (s : List Nat) : Except EncErr (List Nat) :=
  if s.length + 1 < 2147483648 then .ok (natToLe4 (s.length + 1) ++ s ++ [0])
  else .error .oversized

mutual

/-- Modelled from the spec: the type-specific payload of one value
(length-prefixed for strings/binary/sub-documents, fixed-width for
numerics/booleans/oid/timestamps; arrays are encoded as documents keyed by
decimal indices). -/
def encVal : BVal → Except EncErr (List Nat)
  | .double bits => .ok (natToLe8 bits)
  | .str s => encStrPayload s
  | .doc es => do
      let b ← encEntries es
      mkDocFrame b
  | .arr elems => do
      let b ← encArrElems 0 elems
      mkDocFrame b
  | .binary sub data =>
      if data.length < 2147483648 then
        .ok (natToLe4 data.length ++ [sub.toByte] ++ data)
      else .error .oversized
  | .undefined => .ok []
  | .oid b => .ok b
  | .boolean b => .ok [if b then 1 else 0]
  | .utcDatetime ms => .ok (encInt64 ms)
  | .nullValue => .ok []
  | .code s => encStrPayload s
  | .codeWithScope s scope => do
      let sp ← encStrPayload s
      let b ← encEntries scope
      let dp ← mkDocFrame b
      if 4 + sp.length + dp.length < 2147483648 then
        .ok (natToLe4 (4 + sp.length + dp.length) ++ sp ++ dp)
      else .error .oversized
  | .int32 v => .ok (encInt32 v)
  | .timestamp i t => .ok (encInt32 i ++ encInt32 t)
  | .int64 v => .ok (encInt64 v)

/-- Modelled from the spec: the entry list of a document body — for each
entry a 1-byte type tag, the null-terminated key (an embedded NUL byte is
an encoding error), then the value payload. -/
def encEntries : BEntries → Except EncErr (List Nat)
  | .nil => .ok []
  | .cons k v rest =>
      if k.any (fun b => b == 0) then .error .keyWithNul
      else do
        let p ← encVal v
        let r ← encEntries rest
        .ok ([tagOf v] ++ k ++ [0] ++ p ++ r)

/-- Modelled from the spec: an array body is a document body whose keys are
the decimal indices `0`, `1`, ... of the elements. -/
def encArrElems (i : Nat) : BElems → Except EncErr (List Nat)
  | .nil => .ok []
  | .cons v rest => do
      let p ← encVal v
      let r ← encArrElems (i + 1) rest
      .ok ([tagOf v] ++ natDigits i ++ [0] ++ p ++ r)

end

/-- Modelled from the spec: `encode(document) -> bytes`, the whole document
wrapped in the 4-byte total-length prefix and the trailing zero byte. -/
def encode (d : BEntries) : Except EncErr (List Nat) := do
  let b ← encEntries d
  mkDocFrame b

/-- Reads one byte. -/
def readByte : List Nat → Except DecErr (Nat × List Nat)
  | [] => .error .truncated
  | b :: rest => .ok (b, rest)

/-- Reads exactly `n` bytes, failing on a truncated buffer. -/
def readBytes (n : Nat) (bs : List Nat) : Except DecErr (List Nat × List Nat) :=
  if n ≤ bs.length then .ok (bs.take n, bs.drop n) else .error .truncated

/-- Reads an unsigned little-endian 32-bit value. -/
def readU32 (bs : List Nat) : Except DecErr (Nat × List Nat) := do
  let (chunk, rest) ← readBytes 4 bs
  .ok (leToNat chunk, rest)

/-- Reads a length prefix: a 4-byte value that must be a positive `i32`. -/
def readLength (bs : List Nat) : Except DecErr (Nat × List Nat) := do
  let (n, rest) ← readU32 bs
  if n < 2147483648 then .ok (n, rest) else .error .badLength

/-- Reads a little-endian two's-complement `i32`. -/
def readI32 (bs : List Nat) : Except DecErr (Int × List Nat) := do
  let (chunk, rest) ← readBytes 4 bs
  .ok (decInt32 (leToNat chunk), rest)

/-- Reads a little-endian two's-complement `i64`. -/
def readI64 (bs : List Nat) : Except DecErr (Int × List Nat) := do
  let (chunk, rest) ← readBytes 8 bs
  .ok (decInt64 (leToNat chunk), rest)

/-- Reads a null-terminated byte string (the key form). -/
def readCString : List Nat → Except DecErr (List Nat × List Nat)
  | [] => .error .truncated
  | 0 :: rest => .ok ([], rest)
  | b :: rest => do
      let (s, r) ← readCString rest
      .ok (b :: s, r)

/-- Reads a string payload: its length prefix counts the bytes including
the NUL terminator; the exposed bytes exclude it. -/
def readStrPayload (bs : List Nat) : Except DecErr (List Nat × List Nat) := do
  let (n, r1) ← readLength bs
  if n = 0 then .error .badLength
  else do
    let (s, r2) ← readBytes (n - 1) r1
    let (z, r3) ← readByte r2
    if z = 0 then .ok (s, r3) else .error .badLength

mutual

/-- Modelled from the spec: decodes the payload of one value given its type
tag; fails on truncated buffers, inconsistent length prefixes and
unrecognized type tags.  The fuel argument bounds the recursion depth; each
recursive call strictly shrinks the buffer, so any fuel exceeding the
buffer length is sufficient. -/
def decVal : Nat → Nat → List Nat → Except DecErr (BVal × List Nat)
  | 0, _, _ => .error .truncated
  | _ + 1, 1, bs => do
      let (chunk, rest) ← readBytes 8 bs
      .ok (.double (leToNat chunk), rest)
  | _ + 1, 2, bs => do
      let (s, rest) ← readStrPayload bs
      .ok (.str s, rest)
  | fuel + 1, 3, bs => do
      let (n, r1) ← readLength bs
      let (es, r2) ← decEntries fuel r1
      if bs.length - r2.length = n then .ok (.doc es, r2) else .error .badLength
  | fuel + 1, 4, bs => do
      let (n, r1) ← readLength bs
      let (es, r2) ← decEntries fuel r1
      if bs.length - r2.length = n then .ok (.arr es.values, r2) else .error .badLength
  | _ + 1, 5, bs => do
      let (n, r1) ← readLength bs
      let (st, r2) ← readByte r1
      match BinSubtype.fromByte st with
      | none => .error (.badSubtype st)
      | some sub => do
          let (data, r3) ← readBytes n r2
          .ok (.binary sub data, r3)
  | _ + 1, 6, bs => .ok (.undefined, bs)
  | _ + 1, 7, bs => do
      let (b12, rest) ← readBytes 12 bs
      .ok (.oid b12, rest)
  | _ + 1, 8, bs => do
      let (b, rest) ← readByte bs
      match b with
      | 0 => .ok (.boolean false, rest)
      | 1 => .ok (.boolean true, rest)
      | b => .error (.badBool b)
  | _ + 1, 9, bs => do
      let (v, rest) ← readI64 bs
      .ok (.utcDatetime v, rest)
  | _ + 1, 10, bs => .ok (.nullValue, bs)
  | _ + 1, 13, bs => do
      let (s, rest) ← readStrPayload bs
      .ok (.code s, rest)
  | fuel + 1, 15, bs => do
      let (n, r1) ← readLength bs
      let (s, r2) ← readStrPayload r1
      let (m, r3) ← readLength r2
      let (es, r4) ← decEntries fuel r3
      if r2.length - r4.length = m ∧ bs.length - r4.length = n then
        .ok (.codeWithScope s es, r4)
      else .error .badLength
  | _ + 1, 16, bs => do
      let (v, rest) ← readI32 bs
      .ok (.int32 v, rest)
  | _ + 1, 17, bs => do
      let (i, r1) ← readI32 bs
      let (t, r2) ← readI32 r1
      .ok (.timestamp i t, r2)
  | _ + 1, 18, bs => do
      let (v, rest) ← readI64 bs
      .ok (.int64 v, rest)
  | _ + 1, t, _ => .error (.unknownTag t)

/-- Modelled from the spec: decodes document entries until the trailing
zero byte; for each entry a type tag, a null-terminated key, a payload. -/
def decEntries : Nat → List Nat → Except DecErr (BEntries × List Nat)
  | 0, _ => .error .truncated
  | fuel + 1, bs => do
      let (tag, r1) ← readByte bs
      if tag = 0 then .ok (.nil, r1)
      else do
        let (k, r2) ← readCString r1
        let (v, r3) ← decVal fuel tag r2
        let (es, r4) ← decEntries fuel r3
        .ok (.cons k v es, r4)

end

/-- Modelled from the spec: `decode(bytes) -> document`, parsing one whole
document buffer; the length prefix must equal the buffer length and no
bytes may remain. -/
def decode (bs : List Nat) : Except DecErr BEntries := do
  let (n, r1) ← readLength bs
  let (es, r2) ← decEntries bs.length r1
  if n = bs.length ∧ r2 = [] then .ok es else .error .badLength

/-- The document-entry form of an array's elements: decimal index keys
starting at `i`. -/
def arrEntriesFrom (i : Nat) : BElems → BEntries
  | .nil => .nil
  | .cons v rest => .cons (natDigits i) v (arrEntriesFrom (i + 1) rest)

mutual

/-- Well-formedness of a value in the shallow embedding: byte entries are
in fact bytes, the object id is 12 bytes, numeric payloads are within
their machine ranges (automatic in the Rust types, explicit here). -/
def wfVal : BVal → Bool
  | .double bits => bits < 18446744073709551616
  | .str s => s.all (fun b => b < 256)
  | .doc es => wfEntries es
  | .arr elems => wfElems elems
  | .binary _ data => data.all (fun b => b < 256)
  | .undefined => true
  | .oid b => b.length == 12 && b.all (fun b => b < 256)
  | .boolean _ => true
  | .utcDatetime ms => -9223372036854775808 ≤ ms && ms < 9223372036854775808
  | .nullValue => true
  | .code s => s.all (fun b => b < 256)
  | .codeWithScope s scope => s.all (fun b => b < 256) && wfEntries scope
  | .int32 v => -2147483648 ≤ v && v < 2147483648
  | .timestamp i t =>
      (-2147483648 ≤ i && i < 2147483648) && (-2147483648 ≤ t && t < 2147483648)
  | .int64 v => -9223372036854775808 ≤ v && v < 9223372036854775808

def wfEntries : BEntries → Bool
  | .nil => true
  | .cons k v rest => k.all (fun b => b < 256) && wfVal v && wfEntries rest

def wfElems : BElems → Bool
  | .nil => true
  | .cons v rest => wfVal v && wfElems rest

end

/-- The spec's end-to-end example document
`{"name": "Foo", "tags": ["a", "b"], "meta": {"k": 1}}`, with keys and
strings as their UTF-8 bytes. -/
def exDoc : BEntries :=
  .cons [110, 97, 109, 101] (.str [70, 111, 111])
    (.cons [116, 97, 103, 115] (.arr (.cons (.str [97]) (.cons (.str [98]) .nil)))
      (.cons [109, 101, 116, 97] (.doc (.cons [107] (.int32 1) .nil)) .nil))

/-- The encoding of `exDoc`. -/
def exBytes : List Nat :=
  (encode exDoc).toOption.getD []

end Codec

/-! ## Basic lemmas about linked-hash-map insertion -/

theorem docGet_cons (e : String × Bson) (tl : Document) (k : String) :
    docGet (e :: tl) k = if e.1 == k then some e.2 else docGet tl k := by
  simp only [docGet, List.find?_cons]
  cases h : e.1 == k <;> simp [h]

theorem docReplace_cons (e : String × Bson) (tl : Document) (k : String) (v : Bson) :
    docReplace (e :: tl) k v = (if e.1 == k then (k, v) else e) :: docReplace tl k v := rfl

theorem docContains_cons (e : String × Bson) (tl : Document) (k : String) :
    docContains (e :: tl) k = ((e.1 == k) || docContains tl k) := by
  simp [docContains]

theorem docCountKey_cons (e : String × Bson) (tl : Document) (k : String) :
    docCountKey (e :: tl) k = (if e.1 == k then 1 else 0) + docCountKey tl k := by
  simp only [docCountKey, List.filter_cons]
  cases h : e.1 == k <;> simp [h, Nat.add_comm]

theorem docReplace_get_self (d : Document) (k : String) (v : Bson)
    (hc : docContains d k = true) : docGet (docReplace d k v) k = some v := by
  induction d with
  | nil => simp [docContains] at hc
  | cons hd tl ih =>
    rw [docContains_cons] at hc
    rw [docReplace_cons, docGet_cons]
    cases h : hd.1 == k with
    | true => simp [h]
    | false =>
      rw [h] at hc
      simp only [h, Bool.false_eq_true, if_false]
      exact ih (by simpa using hc)

theorem docReplace_get_ne (d : Document) (k k' : String) (v : Bson)
    (h : k' ≠ k) : docGet (docReplace d k v) k' = docGet d k' := by
  induction d with
  | nil => rfl
  | cons hd tl ih =>
    rw [docReplace_cons, docGet_cons, docGet_cons]
    cases hh : hd.1 == k with
    | true =>
      have h1 : (k == k') = false := beq_eq_false_iff_ne.mpr (fun e => h e.symm)
      have h2 : (hd.1 == k') = false := by
        rw [beq_eq_false_iff_ne]
        intro e
        exact h (e ▸ (beq_iff_eq.mp hh) ▸ rfl : k' = k)
      simp [hh, h1, h2, ih]
    | false =>
      simp only [hh, Bool.false_eq_true, if_false]
      cases hh2 : hd.1 == k' <;> simp [hh2, ih]

theorem docAppend_get_self (d : Document) (k : String) (v : Bson)
    (hc : docContains d k = false) : docGet (d ++ [(k, v)]) k = some v := by
  induction d with
  | nil => simp [docGet]
  | cons hd tl ih =>
    rw [docContains_cons, Bool.or_eq_false_iff] at hc
    rw [List.cons_append, docGet_cons, hc.1]
    simpa using ih hc.2

theorem docAppend_get_ne (d : Document) (k k' : String) (v : Bson)
    (h : k' ≠ k) : docGet (d ++ [(k, v)]) k' = docGet d k' := by
  induction d with
  | nil =>
    simp [docGet, beq_eq_false_iff_ne.mpr (fun e => h e.symm : ¬ k = k')]
  | cons hd tl ih =>
    rw [List.cons_append, docGet_cons, docGet_cons]
    cases hh : hd.1 == k' <;> simp [hh, ih]

theorem docGet_insert_self (d : Document) (k : String) (v : Bson) :
    docGet (docInsert d k v) k = some v := by
  unfold docInsert
  split
  · next hc => exact docReplace_get_self d k v hc
  · next hc => exact docAppend_get_self d k v (by simpa using hc)

theorem docGet_insert_ne (d : Document) (k k' : String) (v : Bson)
    (h : k' ≠ k) : docGet (docInsert d k v) k' = docGet d k' := by
  unfold docInsert
  split
  · exact docReplace_get_ne d k k' v h
  · exact docAppend_get_ne d k k' v h

theorem docCountKey_replace (d : Document) (k : String) (v : Bson) :
    docCountKey (docReplace d k v) k = docCountKey d k := by
  induction d with
  | nil => rfl
  | cons hd tl ih =>
    rw [docReplace_cons, docCountKey_cons, docCountKey_cons, ih]
    cases h : hd.1 == k <;> simp [h]

theorem docCountKey_replace_ne (d : Document) (k k' : String) (v : Bson)
    (h : k' ≠ k) : docCountKey (docReplace d k v) k' = docCountKey d k' := by
  induction d with
  | nil => rfl
  | cons hd tl ih =>
    rw [docReplace_cons, docCountKey_cons, docCountKey_cons, ih]
    cases hh : hd.1 == k with
    | true =>
      have h2 : (k == k') = false := beq_eq_false_iff_ne.mpr (fun e => h e.symm)
      have h3 : (hd.1 == k') = false := by
        rw [beq_eq_false_iff_ne]
        intro e
        exact h (e ▸ (beq_iff_eq.mp hh) ▸ rfl : k' = k)
      simp [hh, h2, h3]
    | false => simp [hh]

theorem docCountKey_append (d : Document) (k : String) (v : Bson) :
    docCountKey (d ++ [(k, v)]) k = docCountKey d k + 1 := by
  simp [docCountKey, List.filter_append]

theorem docCountKey_append_ne (d : Document) (k k' : String) (v : Bson)
    (h : k' ≠ k) : docCountKey (d ++ [(k, v)]) k' = docCountKey d k' := by
  simp [docCountKey, List.filter_append,
    beq_eq_false_iff_ne.mpr (fun e => h e.symm : ¬ k = k')]

theorem docCountKey_zero_of_not_contains (d : Document) (k : String)
    (hc : docContains d k = false) : docCountKey d k = 0 := by
  induction d with
  | nil => rfl
  | cons hd tl ih =>
    rw [docContains_cons, Bool.or_eq_false_iff] at hc
    rw [docCountKey_cons, hc.1, ih hc.2]
    rfl

theorem docCountKey_insert_self (d : Document) (k : String) (v : Bson)
    (h : docCountKey d k ≤ 1) : docCountKey (docInsert d k v) k = 1 := by
  unfold docInsert
  split
  · next hc =>
    rw [docCountKey_replace]
    -- `k` is contained in `d`, so its count is positive
    have : 0 < docCountKey d k := by
      simp only [docContains, List.any_eq_true] at hc
      obtain ⟨e, he, hek⟩ := hc
      simp only [docCountKey]
      have : e ∈ d.filter (fun e => e.1 == k) := List.mem_filter.mpr ⟨he, hek⟩
      exact List.length_pos_of_mem this
    omega
  · next hc =>
    rw [docCountKey_append, docCountKey_zero_of_not_contains d k (by simpa using hc)]

theorem docCountKey_insert_ne (d : Document) (k k' : String) (v : Bson)
    (h : k' ≠ k) : docCountKey (docInsert d k v) k' = docCountKey d k' := by
  unfold docInsert
  split
  · exact docCountKey_replace_ne d k k' v h
  · exact docCountKey_append_ne d k k' v h

/-! ## Characterization of `add_subkey_at_key` -/

theorem add_subkey_doc_case (q : Query) (key subkey : String) (v : Bson) (d : Document)
    (h : docGet q.query key = some (.document d)) :
    (q.add_subkey_at_key key subkey v).query
      = docInsert q.query key (.document (docInsert d subkey v)) := by
  unfold Query.add_subkey_at_key
  rw [h]

theorem add_subkey_none_case (q : Query) (key subkey : String) (v : Bson)
    (h : docGet q.query key = none) :
    (q.add_subkey_at_key key subkey v).query
      = docInsert q.query key (.document [(subkey, v)]) := by
  unfold Query.add_subkey_at_key
  rw [h]

theorem add_subkey_get (q : Query) (key subkey : String) (v : Bson) :
    ∃ d', docGet (q.add_subkey_at_key key subkey v).query key = some (.document d')
      ∧ docGet d' subkey = some v := by
  unfold Query.add_subkey_at_key
  cases hv : docGet q.query key with
  | none =>
    exact ⟨[(subkey, v)], docGet_insert_self _ _ _, docGet_insert_self [] _ _⟩
  | some b =>
    cases b <;>
      first
      | exact ⟨[(subkey, v)], docGet_insert_self _ _ _, docGet_insert_self [] _ _⟩
      | next d =>
          exact ⟨docInsert d subkey v, docGet_insert_self _ _ _, docGet_insert_self _ _ _⟩

theorem add_subkey_countKey (q : Query) (key subkey : String) (v : Bson)
    (hcount : docCountKey q.query key ≤ 1) :
    docCountKey (q.add_subkey_at_key key subkey v).query key = 1 := by
  unfold Query.add_subkey_at_key
  cases hv : docGet q.query key with
  | none => exact docCountKey_insert_self _ _ _ hcount
  | some b => cases b <;> exact docCountKey_insert_self _ _ _ hcount

theorem add_subkey_countKey_ne (q : Query) (key subkey k' : String) (v : Bson)
    (h : k' ≠ key) :
    docCountKey (q.add_subkey_at_key key subkey v).query k' = docCountKey q.query k' := by
  unfold Query.add_subkey_at_key
  cases hv : docGet q.query key with
  | none => exact docCountKey_insert_ne _ _ _ _ h
  | some b => cases b <;> exact docCountKey_insert_ne _ _ _ _ h

/-! ## Claim theorems for the query builder -/

/-- Claim C2: `add_subkey_at_key` merges the `(operator key, field sub-key,
value)` triple into the existing sub-document at the operator key, or creates
a fresh single-entry sub-document; the result always has exactly one entry at
the operator key (given the at-most-one invariant on the input), the value at
the `(operator, field)` pair is the one from the last call, every triple-style
builder method routes through `add_subkey_at_key`, and
`Q.inc("a", 1).inc("b", 2)` yields a single `$inc` key holding both fields. -/
theorem c2_operator_key_merge (q : Query) (op f s : String) (v : Bson) (n : BsonNumber)
    (l : Int) (hcount : docCountKey q.query op ≤ 1) :
    (∀ d, docGet q.query op = some (.document d) →
        (q.add_subkey_at_key op f v).query = docInsert q.query op (.document (docInsert d f v)))
    ∧ (docGet q.query op = none →
        (q.add_subkey_at_key op f v).query = docInsert q.query op (.document [(f, v)]))
    ∧ docCountKey (q.add_subkey_at_key op f v).query op = 1
    ∧ (∃ d', docGet (q.add_subkey_at_key op f v).query op = some (.document d')
        ∧ docGet d' f = some v)
    ∧ docCountKey Query.new.query op = 0
    ∧ q.inc f n = q.add_subkey_at_key "$inc" f n.to_bson
    ∧ q.set f v = q.add_subkey_at_key "$set" f v
    ∧ q.upsert f v = q.add_subkey_at_key "$upsert" f v
    ∧ q.push f v = q.add_subkey_at_key "$push" f v
    ∧ q.pull f v = q.add_subkey_at_key "$pull" f v
    ∧ q.add_to_set f v = q.add_subkey_at_key "$addToSet" f v
    ∧ q.unset f = q.add_subkey_at_key "$unset" f (.string "")
    ∧ q.rename f s = q.add_subkey_at_key "$rename" f (.string s)
    ∧ q.join f s = q.add_subkey_at_key "$do" f (.document [("$join", .string s)])
    ∧ q.slice f l = q.add_subkey_at_key "$do" f (.document [("$slice", .i64 l)])
    ∧ ((Query.new.inc "a" (.i32 1)).inc "b" (.i32 2)).query
        = [("$inc", .document [("a", .i32 1), ("b", .i32 2)])] := by
  refine ⟨fun d h => add_subkey_doc_case q op f v d h,
    fun h => add_subkey_none_case q op f v h,
    add_subkey_countKey q op f v hcount,
    add_subkey_get q op f v,
    rfl, rfl, rfl, rfl, rfl, rfl, rfl, rfl, rfl, rfl, rfl, rfl⟩

/-- Witness for C2 at a concrete query. -/
theorem c2_operator_key_merge_witness :
    docCountKey Query.new.query "$inc" ≤ 1
    ∧ docCountKey ((Query.new).add_subkey_at_key "$inc" "a" (.i32 1)).query "$inc" = 1 := by
  refine ⟨by decide, ?_⟩
  exact (c2_operator_key_merge Query.new "$inc" "a" "s" (.i32 1) (.i32 1) 0
    (by decide)).2.2.1

/-- Claim C3: repeated `set()` calls merge into one `$set` sub-document;
`set_many()` replaces the entire existing `$set` sub-document with the given
document, also when a merged sub-document is already present (the spec's
scenario: two `set()` calls, then `set_many()` overwrites the merged
document); `set()` calls made after `set_many()` merge their sub-keys into
the replaced document; the same holds for `upsert`/`upsert_many` under
`$upsert`. -/
theorem c3_set_many_replace (q : Query) (d : Document) (k k1 k2 : String) (v v1 v2 : Bson)
    (hs : docGet q.query "$set" = none) (hu : docGet q.query "$upsert" = none) :
    docGet ((q.set k1 v1).set k2 v2).query "$set"
        = some (.document (docInsert [(k1, v1)] k2 v2))
    ∧ (∀ q' : Query, docGet (q'.set_many d).query "$set" = some (.document d))
    ∧ docGet (((q.set k1 v1).set k2 v2).set_many d).query "$set" = some (.document d)
    ∧ docGet ((((q.set k1 v1).set k2 v2).set_many d).set k v).query "$set"
        = some (.document (docInsert d k v))
    ∧ (∀ q' : Query, docGet ((q'.set_many d).set k v).query "$set"
        = some (.document (docInsert d k v)))
    ∧ docGet ((q.upsert k1 v1).upsert k2 v2).query "$upsert"
        = some (.document (docInsert [(k1, v1)] k2 v2))
    ∧ (∀ q' : Query, docGet (q'.upsert_many d).query "$upsert" = some (.document d))
    ∧ docGet (((q.upsert k1 v1).upsert k2 v2).upsert_many d).query "$upsert"
        = some (.document d)
    ∧ (∀ q' : Query, docGet ((q'.upsert_many d).upsert k v).query "$upsert"
        = some (.document (docInsert d k v))) := by
  have hsetAfter : ∀ q' : Query, docGet ((q'.set_many d).set k v).query "$set"
      = some (.document (docInsert d k v)) := by
    intro q'
    have h2 : docGet (q'.set_many d).query "$set" = some (.document d) :=
      docGet_insert_self _ _ _
    rw [show (q'.set_many d).set k v = (q'.set_many d).add_subkey_at_key "$set" k v from rfl,
      add_subkey_doc_case _ _ _ _ _ h2]
    exact docGet_insert_self _ _ _
  have hupAfter : ∀ q' : Query, docGet ((q'.upsert_many d).upsert k v).query "$upsert"
      = some (.document (docInsert d k v)) := by
    intro q'
    have h2 : docGet (q'.upsert_many d).query "$upsert" = some (.document d) :=
      docGet_insert_self _ _ _
    rw [show (q'.upsert_many d).upsert k v
          = (q'.upsert_many d).add_subkey_at_key "$upsert" k v from rfl,
      add_subkey_doc_case _ _ _ _ _ h2]
    exact docGet_insert_self _ _ _
  refine ⟨?_, fun q' => docGet_insert_self _ _ _, docGet_insert_self _ _ _,
    hsetAfter _, hsetAfter, ?_, fun q' => docGet_insert_self _ _ _,
    docGet_insert_self _ _ _, hupAfter⟩
  · have h1 : (q.set k1 v1).query = docInsert q.query "$set" (.document [(k1, v1)]) :=
      add_subkey_none_case q _ _ _ hs
    have h2 : docGet (q.set k1 v1).query "$set" = some (.document [(k1, v1)]) := by
      rw [h1]; exact docGet_insert_self _ _ _
    rw [show (q.set k1 v1).set k2 v2 = (q.set k1 v1).add_subkey_at_key "$set" k2 v2 from rfl,
      add_subkey_doc_case _ _ _ _ _ h2]
    exact docGet_insert_self _ _ _
  · have h1 : (q.upsert k1 v1).query = docInsert q.query "$upsert" (.document [(k1, v1)]) :=
      add_subkey_none_case q _ _ _ hu
    have h2 : docGet (q.upsert k1 v1).query "$upsert" = some (.document [(k1, v1)]) := by
      rw [h1]; exact docGet_insert_self _ _ _
    rw [show (q.upsert k1 v1).upsert k2 v2
          = (q.upsert k1 v1).add_subkey_at_key "$upsert" k2 v2 from rfl,
      add_subkey_doc_case _ _ _ _ _ h2]
    exact docGet_insert_self _ _ _

/-- Witness for C3 at a concrete query, following the source's `test_set`
scenario: two merged `set()` calls, then `set_many()` overwrites the merged
sub-document, then a later `set()` merges into the new one. -/
theorem c3_set_many_replace_witness :
    docGet ((Query.new.set "x" (.i32 12)).set "y" (.i32 34)).query "$set"
      = some (.document [("x", .i32 12), ("y", .i32 34)])
    ∧ docGet (((Query.new.set "x" (.i32 12)).set "y" (.i32 34)).set_many
        [("a", .string "u"), ("b", .string "w")]).query "$set"
      = some (.document [("a", .string "u"), ("b", .string "w")])
    ∧ docGet ((((Query.new.set "x" (.i32 12)).set "y" (.i32 34)).set_many
        [("a", .string "u"), ("b", .string "w")]).set "z" (.i32 7)).query "$set"
      = some (.document [("a", .string "u"), ("b", .string "w"), ("z", .i32 7)]) := by
  have h := c3_set_many_replace Query.new [("a", .string "u"), ("b", .string "w")]
    "z" "x" "y" (.i32 7) (.i32 12) (.i32 34) rfl rfl
  exact ⟨by simpa using h.1, by simpa using h.2.2.1, by simpa using h.2.2.2.1⟩

/-- Claim C4: `and`/`or` insert a new `$and`/`$or` array of the given
sub-query documents in order, replacing any pre-existing array. -/
theorem c4_and_or_overwrite (q : Query) (l l1 l2 : List Document) :
    docGet ((q.and l1).and l2).query "$and" = some (.array (l2.map .document))
    ∧ docGet (q.and l).query "$and" = some (.array (l.map .document))
    ∧ docGet ((q.or l1).or l2).query "$or" = some (.array (l2.map .document))
    ∧ docGet (q.or l).query "$or" = some (.array (l.map .document)) :=
  ⟨docGet_insert_self _ _ _, docGet_insert_self _ _ _,
   docGet_insert_self _ _ _, docGet_insert_self _ _ _⟩

/-- Claim C9: the `BsonNumber` impls preserve the caller-selected numeric
type exactly — `i32` becomes BSON int32, `i64` becomes BSON int64, `f64`
becomes the BSON 64-bit float — and the builder methods taking a
`BsonNumber` (`inc`, `gt`, `between`, `slice_with_offset`) store exactly
that value with no conversion. -/
theorem c9_numeric_type_fidelity (v : Int) (bits : Nat) (q : Query) (k f : String)
    (off lim : Int) :
    BsonNumber.to_bson (.i32 v) = Bson.i32 v
    ∧ BsonNumber.to_bson (.i64 v) = Bson.i64 v
    ∧ BsonNumber.to_bson (.f64 bits) = Bson.floatingPoint bits
    ∧ (∀ n : BsonNumber, ∃ d, docGet (q.inc k n).query "$inc" = some (.document d)
        ∧ docGet d k = some n.to_bson)
    ∧ (∀ n : BsonNumber, (Query.new.field f).gt n
        = Query.new.merge_documents_at_key f [("$gt", n.to_bson)])
    ∧ (∀ n m : BsonNumber, (Query.new.field f).between n m
        = Query.new.merge_documents_at_key f [("$bt", .array [n.to_bson, m.to_bson])])
    ∧ (∃ d, docGet (q.slice_with_offset k off lim).query "$do" = some (.document d)
        ∧ docGet d k = some (.document [("$slice", .array [Bson.i64 off, Bson.i64 lim])])) :=
  ⟨rfl, rfl, rfl,
   fun n => add_subkey_get q "$inc" k n.to_bson,
   fun _ => rfl, fun _ _ => rfl,
   add_subkey_get q "$do" k _⟩

/-- Claim C10: finishing a root-level field constraint with a non-document
value inserts it directly at the field key (replacing whatever was there),
while finishing with a document value (as all operator methods do) merges
that document's entries into an existing sub-document at the field key. -/
theorem c10_root_constraint_finish (q : Query) (f : String) (v : Bson) (doc d : Document)
    (hnd : v.isDocValue = false) :
    ((q.field f).eq v = ⟨docInsert q.query f v⟩
      ∧ docGet ((q.field f).eq v).query f = some v)
    ∧ (docGet q.query f = some (.document d) →
        (q.field f).eq (.document doc)
          = ⟨docInsert q.query f (.document (doc.foldl (fun acc e => docInsert acc e.1 e.2) d))⟩)
    ∧ (∀ n m : BsonNumber, docGet ((((Query.new.field f).gt n).field f).lt m).query f
        = some (.document [("$gt", n.to_bson), ("$lt", m.to_bson)])) := by
  refine ⟨⟨?_, ?_⟩, ?_, ?_⟩
  · cases v <;> first | rfl | simp [Bson.isDocValue] at hnd
  · have h : (q.field f).eq v = ⟨docInsert q.query f v⟩ := by
      cases v <;> first | rfl | simp [Bson.isDocValue] at hnd
    rw [h]
    exact docGet_insert_self _ _ _
  · intro hd
    show Query.merge_documents_at_key q f doc = _
    unfold Query.merge_documents_at_key
    rw [hd]
  · intro n m
    have h1 : ((Query.new.field f).gt n).query = [(f, .document [("$gt", n.to_bson)])] := rfl
    show docGet (Query.merge_documents_at_key _ f [("$lt", m.to_bson)]).query f = _
    unfold Query.merge_documents_at_key
    rw [show docGet ((Query.new.field f).gt n).query f = some (.document [("$gt", n.to_bson)]) by
      rw [h1]; simp [docGet]]
    simp only
    rw [show List.foldl (fun acc e => docInsert acc e.1 e.2) [("$gt", n.to_bson)]
          [("$lt", m.to_bson)] = [("$gt", n.to_bson), ("$lt", m.to_bson)] from rfl]
    exact docGet_insert_self _ _ _

/-- Witness for C10 at a concrete non-document value. -/
theorem c10_root_constraint_finish_witness :
    (Bson.i32 5).isDocValue = false
    ∧ docGet ((Query.new.field "x").eq (.i32 5)).query "x" = some (.i32 5) := by
  refine ⟨by decide, ?_⟩
  exact (c10_root_constraint_finish Query.new "x" (.i32 5) [] [] (by decide)).1.2

/-! ## Query hints claims -/

theorem docContains_true_of_get (d : Document) (k : String) (v : Bson)
    (h : docGet d k = some v) : docContains d k = true := by
  induction d with
  | nil => simp [docGet] at h
  | cons hd tl ih =>
    rw [docGet_cons] at h
    rw [docContains_cons]
    cases hh : hd.1 == k with
    | true => simp
    | false =>
      rw [hh] at h
      simp only [Bool.false_eq_true, if_false] at h
      simp [ih h]

theorem docContains_false_of_get_none (d : Document) (k : String)
    (h : docGet d k = none) : docContains d k = false := by
  induction d with
  | nil => rfl
  | cons hd tl ih =>
    rw [docGet_cons] at h
    rw [docContains_cons]
    cases hh : hd.1 == k with
    | true => rw [hh] at h; simp at h
    | false =>
      rw [hh] at h
      simp only [Bool.false_eq_true, if_false] at h
      simp [ih h]

theorem add_hint_none_case (h : QueryHints) (key subkey : String) (value : Int)
    (hg : docGet h.hints key = none) :
    h.add_hint key subkey value
      = some ⟨docInsert h.hints key (.document [(subkey, .i32 value)])⟩ := by
  unfold QueryHints.add_hint
  rw [docContains_false_of_get_none _ _ hg]
  simp

theorem add_hint_doc_case (h : QueryHints) (key subkey : String) (value : Int) (d : Document)
    (hg : docGet h.hints key = some (.document d)) :
    h.add_hint key subkey value
      = some ⟨docInsert h.hints key (.document (docInsert d subkey (.i32 value)))⟩ := by
  unfold QueryHints.add_hint
  rw [docContains_true_of_get _ _ _ hg]
  simp [hg]

/-- Claim C5: `order_by(f).desc()`/`.asc()` record `f => -1`/`f => 1` inside
the single shared `$orderBy` sub-document, `field(f).exclude()/include()`
record `f => -1`/`f => 1` inside the single shared `$fields` sub-document,
repeated calls for different fields merge into the same sub-document (the
hints keep at most one `$orderBy` and one `$fields` entry), and a repeated
call for the same field overwrites the earlier value. -/
theorem c5_hints_merge (h : QueryHints) (f : String) (dO dF : Document)
    (hord : docGet h.hints "$orderBy" = some (.document dO))
    (hfld : docGet h.hints "$fields" = some (.document dF))
    (hco : docCountKey h.hints "$orderBy" ≤ 1)
    (hcf : docCountKey h.hints "$fields" ≤ 1) :
    (h.order_by f).desc
        = some ⟨docInsert h.hints "$orderBy" (.document (docInsert dO f (.i32 (-1))))⟩
    ∧ (h.order_by f).asc
        = some ⟨docInsert h.hints "$orderBy" (.document (docInsert dO f (.i32 1)))⟩
    ∧ (h.field f).exclude
        = some ⟨docInsert h.hints "$fields" (.document (docInsert dF f (.i32 (-1))))⟩
    ∧ (h.field f).include'
        = some ⟨docInsert h.hints "$fields" (.document (docInsert dF f (.i32 1)))⟩
    ∧ (∀ h0 : QueryHints, docGet h0.hints "$orderBy" = none →
        (h0.order_by f).desc
          = some ⟨docInsert h0.hints "$orderBy" (.document [(f, .i32 (-1))])⟩)
    ∧ (∀ h0 : QueryHints, docGet h0.hints "$fields" = none →
        (h0.field f).include'
          = some ⟨docInsert h0.hints "$fields" (.document [(f, .i32 1)])⟩)
    ∧ (∀ h', (h.order_by f).desc = some h' → docCountKey h'.hints "$orderBy" = 1)
    ∧ (∀ h', (h.field f).exclude = some h' → docCountKey h'.hints "$fields" = 1)
    ∧ (∀ h', (h.order_by f).desc = some h' →
        ∃ d', docGet h'.hints "$orderBy" = some (.document d')
          ∧ docGet d' f = some (.i32 (-1))
          ∧ ∀ g, g ≠ f → docGet d' g = docGet dO g) := by
  have hdesc : (h.order_by f).desc
      = some ⟨docInsert h.hints "$orderBy" (.document (docInsert dO f (.i32 (-1))))⟩ :=
    add_hint_doc_case h "$orderBy" f (-1) dO hord
  have hexc : (h.field f).exclude
      = some ⟨docInsert h.hints "$fields" (.document (docInsert dF f (.i32 (-1))))⟩ :=
    add_hint_doc_case h "$fields" f (-1) dF hfld
  refine ⟨hdesc,
    add_hint_doc_case h "$orderBy" f 1 dO hord,
    hexc,
    add_hint_doc_case h "$fields" f 1 dF hfld,
    fun h0 hg => add_hint_none_case h0 "$orderBy" f (-1) hg,
    fun h0 hg => add_hint_none_case h0 "$fields" f 1 hg,
    ?_, ?_, ?_⟩
  · intro h' hh
    rw [hdesc] at hh
    cases hh
    exact docCountKey_insert_self _ _ _ hco
  · intro h' hh
    rw [hexc] at hh
    cases hh
    exact docCountKey_insert_self _ _ _ hcf
  · intro h' hh
    rw [hdesc] at hh
    cases hh
    exact ⟨docInsert dO f (.i32 (-1)), docGet_insert_self _ _ _,
      docGet_insert_self _ _ _, fun g hg => docGet_insert_ne _ _ _ _ hg⟩

/-! ## save_all claims -/

theorem save_all_loop_ok (save : Document → Except EjdbError ObjectId)
    (ids : Document → ObjectId) (docs : List Document) (acc : List ObjectId)
    (hok : ∀ d ∈ docs, save d = .ok (ids d)) :
    save_all_loop save docs acc = .ok (acc ++ docs.map ids) := by
  induction docs generalizing acc with
  | nil => simp [save_all_loop]
  | cons hd tl ih =>
    rw [save_all_loop, hok hd (List.mem_cons_self hd tl)]
    show save_all_loop save tl (acc ++ [ids hd]) = _
    rw [ih (acc ++ [ids hd]) (fun d hd' => hok d (List.mem_cons_of_mem hd hd'))]
    simp

theorem save_all_loop_fail (save : Document → Except EjdbError ObjectId)
    (ids : Document → ObjectId) (e : EjdbError) (pre post : List Document)
    (bad : Document) (acc : List ObjectId)
    (hok : ∀ d ∈ pre, save d = .ok (ids d)) (hbad : save bad = .error e) :
    save_all_loop save (pre ++ bad :: post) acc
      = .error (.partialSave e (acc ++ pre.map ids)) := by
  induction pre generalizing acc with
  | nil => simp [save_all_loop, hbad]
  | cons hd tl ih =>
    rw [List.cons_append, save_all_loop, hok hd (List.mem_cons_self hd tl)]
    show save_all_loop save (tl ++ bad :: post) (acc ++ [ids hd]) = _
    rw [ih (acc ++ [ids hd]) (fun d hd' => hok d (List.mem_cons_of_mem hd hd'))]
    simp

/-- Claim C6: if saving fails after `k` documents were saved successfully,
`save_all` returns a `PartialSave` error value carrying the underlying cause
and exactly the `k` object ids assigned before the failure, in order; with
no failure it returns the full id list.  The error is a returned value and
each document is passed to `save` at most once (no internal retry). -/
theorem c6_save_all_partial_save (save : Document → Except EjdbError ObjectId)
    (ids : Document → ObjectId) (e : EjdbError) (pre post : List Document) (bad : Document)
    (hok : ∀ d ∈ pre, save d = .ok (ids d)) (hbad : save bad = .error e) :
    save_all save (pre ++ bad :: post) = .error (.partialSave e (pre.map ids))
    ∧ (pre.map ids).length = pre.length
    ∧ (∀ docs : List Document, (∀ d ∈ docs, save d = .ok (ids d)) →
        save_all save docs = .ok (docs.map ids)) := by
  refine ⟨?_, List.length_map pre ids, ?_⟩
  · have := save_all_loop_fail save ids e pre post bad [] hok hbad
    simpa [save_all] using this
  · intro docs hall
    have := save_all_loop_ok save ids docs [] hall
    simpa [save_all] using this

/-- Witness for C6: a three-document batch whose second document fails. -/
theorem c6_save_all_partial_save_witness :
    save_all exampleSave [[("_id", Bson.i32 1)], [], [("_id", Bson.i32 2)]]
      = .error (.partialSave (.other "no id") [[1]]) := by
  have hok : ∀ d ∈ [[("_id", Bson.i32 1)]], exampleSave d = .ok (exampleIds d) := by
    intro d hd
    rw [List.mem_singleton] at hd
    subst hd
    rfl
  have := (c6_save_all_partial_save exampleSave exampleIds (.other "no id")
    [[("_id", Bson.i32 1)]] [[("_id", Bson.i32 2)]] [] hok rfl).1
  simpa using this

/-! ## Index builder claims -/

theorem check_type_flags (i : Index) (f : Nat) (h : i.flags = some f) :
    i.check_type
      = if [JBIDXSTR, JBIDXISTR, JBIDXNUM, JBIDXARR].any (fun t => f &&& t != 0) then some i
        else none := by
  unfold Index.check_type
  rw [h]

theorem check_type_flags_none (i : Index) (h : i.flags = none) : i.check_type = none := by
  unfold Index.check_type
  rw [h]

theorem finalizers_pass (j : Index) (f : Nat) (hf : j.flags = some f)
    (hmem : f ∈ typeFlagCombos) :
    j.set.isSome ∧ j.drop.isSome ∧ j.rebuild.isSome ∧ j.optimize.isSome := by
  have hpass : ∀ a ∈ typeFlagCombos,
      ([JBIDXSTR, JBIDXISTR, JBIDXNUM, JBIDXARR].any (fun t => a &&& t != 0)) = true := by
    decide
  have hpassOr : ∀ a ∈ typeFlagCombos, ∀ b ∈ [JBIDXDROP, JBIDXREBLD, JBIDXOP],
      ([JBIDXSTR, JBIDXISTR, JBIDXNUM, JBIDXARR].any (fun t => (a ||| b) &&& t != 0))
        = true := by
    decide
  refine ⟨?_, ?_, ?_, ?_⟩
  · show (j.check_type.bind Index.execute).isSome = true
    rw [check_type_flags j f hf, hpass f hmem]
    simp [Index.execute, hf]
  · show (((j.add_flags JBIDXDROP).check_type).bind Index.execute).isSome = true
    have hfd : (j.add_flags JBIDXDROP).flags = some (f ||| JBIDXDROP) := by
      simp [Index.add_flags, hf]
    rw [check_type_flags _ _ hfd, hpassOr f hmem JBIDXDROP (by decide)]
    simp [Index.execute, hfd]
  · show (((j.add_flags JBIDXREBLD).check_type).bind Index.execute).isSome = true
    have hfd : (j.add_flags JBIDXREBLD).flags = some (f ||| JBIDXREBLD) := by
      simp [Index.add_flags, hf]
    rw [check_type_flags _ _ hfd, hpassOr f hmem JBIDXREBLD (by decide)]
    simp [Index.execute, hfd]
  · show (((j.add_flags JBIDXOP).check_type).bind Index.execute).isSome = true
    have hfd : (j.add_flags JBIDXOP).flags = some (f ||| JBIDXOP) := by
      simp [Index.add_flags, hf]
    rw [check_type_flags _ _ hfd, hpassOr f hmem JBIDXOP (by decide)]
    simp [Index.execute, hfd]

theorem applyIndexTypeCalls_cons (i : Index) (c : IndexTypeCall)
    (rest : List IndexTypeCall) :
    applyIndexTypeCalls i (c :: rest) = applyIndexTypeCalls (i.add_flags (callFlag c)) rest := by
  cases c <;> rfl

theorem callFlag_mem (c : IndexTypeCall) : callFlag c ∈ [16, 32, 64, 128] := by
  cases c with
  | string cs => cases cs <;> decide
  | number => decide
  | array => decide

theorem applyIndexTypeCalls_combo (calls : List IndexTypeCall) :
    ∀ (i : Index) (f : Nat), i.flags = some f → f ∈ typeFlagCombos →
      ∃ f', (applyIndexTypeCalls i calls).flags = some f' ∧ f' ∈ typeFlagCombos := by
  induction calls with
  | nil => exact fun i f h hf => ⟨f, h, hf⟩
  | cons c rest ih =>
    intro i f h hf
    have hclosed : ∀ a ∈ typeFlagCombos, ∀ b ∈ [16, 32, 64, 128],
        (a ||| b) ∈ typeFlagCombos := by decide
    rw [applyIndexTypeCalls_cons]
    have hstep : (i.add_flags (callFlag c)).flags = some (f ||| callFlag c) := by
      simp [Index.add_flags, h]
    exact ih _ _ hstep (hclosed f hf (callFlag c) (callFlag_mem c))

/-- Claim C7: finalizing an index builder (`set`, `drop`, `rebuild`,
`optimize`) without a prior `string()`/`number()`/`array()` call panics (the
model's `none`); after at least one type call the check passes and the
operation proceeds to execution. -/
theorem c7_index_check_type (k : String) (calls : List IndexTypeCall)
    (hne : calls ≠ []) :
    ((collectionIndex k).set = none ∧ (collectionIndex k).drop = none
      ∧ (collectionIndex k).rebuild = none ∧ (collectionIndex k).optimize = none)
    ∧ ((applyIndexTypeCalls (collectionIndex k) calls).set.isSome
      ∧ (applyIndexTypeCalls (collectionIndex k) calls).drop.isSome
      ∧ (applyIndexTypeCalls (collectionIndex k) calls).rebuild.isSome
      ∧ (applyIndexTypeCalls (collectionIndex k) calls).optimize.isSome) := by
  constructor
  · have hnone : (collectionIndex k).flags = none := rfl
    have hcond : ∀ b : Nat, b ∈ [JBIDXDROP, JBIDXREBLD, JBIDXOP] →
        ([JBIDXSTR, JBIDXISTR, JBIDXNUM, JBIDXARR].any (fun t => ((0 : Nat) ||| b) &&& t != 0))
          = false := by
      decide
    refine ⟨?_, ?_, ?_, ?_⟩
    · show ((collectionIndex k).check_type.bind Index.execute) = none
      rw [check_type_flags_none _ hnone]
      rfl
    · show ((((collectionIndex k).add_flags JBIDXDROP).check_type).bind Index.execute) = none
      rw [check_type_flags _ (0 ||| JBIDXDROP) rfl, hcond JBIDXDROP (by decide)]
      rfl
    · show ((((collectionIndex k).add_flags JBIDXREBLD).check_type).bind Index.execute) = none
      rw [check_type_flags _ (0 ||| JBIDXREBLD) rfl, hcond JBIDXREBLD (by decide)]
      rfl
    · show ((((collectionIndex k).add_flags JBIDXOP).check_type).bind Index.execute) = none
      rw [check_type_flags _ (0 ||| JBIDXOP) rfl, hcond JBIDXOP (by decide)]
      rfl
  · obtain ⟨c, rest, rfl⟩ : ∃ c rest, calls = c :: rest := by
      cases calls with
      | nil => exact absurd rfl hne
      | cons c rest => exact ⟨c, rest, rfl⟩
    have hinit : ∀ a ∈ [16, 32, 64, 128], (0 ||| a) ∈ typeFlagCombos := by decide
    rw [applyIndexTypeCalls_cons]
    have hstep : ((collectionIndex k).add_flags (callFlag c)).flags
        = some (0 ||| callFlag c) := by
      simp [Index.add_flags, collectionIndex]
    obtain ⟨f', hf', hmem⟩ :=
      applyIndexTypeCalls_combo rest _ (0 ||| callFlag c) hstep
        (hinit (callFlag c) (callFlag_mem c))
    exact finalizers_pass _ f' hf' hmem

/-- Witness for C7 at a concrete builder chain. -/
theorem c7_index_check_type_witness :
    (collectionIndex "name").set = none
    ∧ (applyIndexTypeCalls (collectionIndex "name") [.string true]).set.isSome := by
  have := c7_index_check_type "name" [.string true] (by simp)
  exact ⟨this.1.1, this.2.1⟩

/-! ## Object id formatting claims -/

set_option maxRecDepth 8000 in
theorem oidHexDisplay_data (bytes : List Nat) (h256 : ∀ b ∈ bytes, b < 256) :
    (oidHexDisplay bytes).data
      = bytes.flatMap (fun b => [Nat.digitChar (b / 16), Nat.digitChar (b % 16)]) := by
  have hchars : ∀ n, n < 16 → CHARS.getD n 'x' = Nat.digitChar n := by decide
  have hshift : ∀ b, b < 256 → b >>> 4 = b / 16 := by decide
  have hand : ∀ b, b < 256 → b &&& 0xf = b % 16 := by decide
  induction bytes with
  | nil => rfl
  | cons b tl ih =>
    have hb := h256 b (List.mem_cons_self b tl)
    have htl := ih (fun x hx => h256 x (List.mem_cons_of_mem b hx))
    show CHARS.getD (b >>> 4) 'x' :: CHARS.getD (b &&& 0xf) 'x'
        :: (oidHexDisplay tl).data = _
    rw [hshift b hb, hand b hb, hchars (b / 16) (Nat.div_lt_of_lt_mul (by omega)),
      hchars (b % 16) (Nat.mod_lt b (by omega)), htl]
    rfl

theorem oidHexDisplay_length (bytes : List Nat) :
    (oidHexDisplay bytes).length = 2 * bytes.length := by
  induction bytes with
  | nil => rfl
  | cons b tl ih =>
    show (CHARS.getD (b >>> 4) 'x' :: CHARS.getD (b &&& 0xf) 'x'
        :: (oidHexDisplay tl).data).length = _
    simp only [List.length_cons]
    have : (oidHexDisplay tl).data.length = 2 * tl.length := ih
    rw [this]
    omega

/-- Claim C8: the textual form of a 12-byte object id is the 24-character
lowercase hex encoding, two digits per byte, most-significant nibble first;
in particular `[0x00, 0x01, ..., 0x0b]` formats as
`"000102030405060708090a0b"`. -/
theorem c8_oid_hex_format (bytes : List Nat) (h256 : ∀ b ∈ bytes, b < 256)
    (hlen : bytes.length = 12) :
    (oidHexDisplay bytes).length = 24
    ∧ (oidHexDisplay bytes).data
        = bytes.flatMap (fun b => [Nat.digitChar (b / 16), Nat.digitChar (b % 16)])
    ∧ (∀ c ∈ (oidHexDisplay bytes).data, c ∈ CHARS)
    ∧ oidHexDisplay [0, 1, 2, 3, 4, 5, 6, 7, 8, 9, 10, 11]
        = "000102030405060708090a0b" := by
  refine ⟨?_, oidHexDisplay_data bytes h256, ?_, by decide⟩
  · rw [oidHexDisplay_length, hlen]
  · intro c hc
    rw [oidHexDisplay_data bytes h256] at hc
    have hmem : ∀ n, n < 16 → Nat.digitChar n ∈ CHARS := by decide
    simp only [List.mem_flatMap] at hc
    obtain ⟨b, hb, hcb⟩ := hc
    have hb256 := h256 b hb
    simp only [List.mem_cons, List.not_mem_nil, or_false] at hcb
    rcases hcb with h | h
    · exact h ▸ hmem (b / 16) (Nat.div_lt_of_lt_mul (by omega))
    · exact h ▸ hmem (b % 16) (Nat.mod_lt b (by omega))

/-! ## Round-trip lemmas for the codec -/

namespace Codec

theorem readBytes_append (xs rest : List Nat) :
    readBytes xs.length (xs ++ rest) = .ok (xs, rest) := by
  unfold readBytes
  rw [if_pos (by simp)]
  rw [List.take_left, List.drop_left]

theorem natToLe4_length (n : Nat) : (natToLe4 n).length = 4 := rfl

theorem natToLe8_length (n : Nat) : (natToLe8 n).length = 8 := rfl

theorem leToNat_natToLe4 (n : Nat) (h : n < 4294967296) :
    leToNat (natToLe4 n) = n := by
  simp only [natToLe4, leToNat, List.foldr]
  omega

theorem leToNat_natToLe8 (n : Nat) (h : n < 18446744073709551616) :
    leToNat (natToLe8 n) = n := by
  simp only [natToLe8, leToNat, List.foldr]
  omega

theorem readU32_frame (n : Nat) (rest : List Nat) (h : n < 4294967296) :
    readU32 (natToLe4 n ++ rest) = .ok (n, rest) := by
  unfold readU32
  rw [show (4 : Nat) = (natToLe4 n).length from rfl, readBytes_append]
  simp [Bind.bind, Except.bind, leToNat_natToLe4 n h]

theorem readLength_frame (n : Nat) (rest : List Nat) (h : n < 2147483648) :
    readLength (natToLe4 n ++ rest) = .ok (n, rest) := by
  unfold readLength
  rw [readU32_frame n rest (by omega)]
  simp [Bind.bind, Except.bind, h]

theorem readI32_encInt32 (v : Int) (rest : List Nat)
    (h1 : -2147483648 ≤ v) (h2 : v < 2147483648) :
    readI32 (encInt32 v ++ rest) = .ok (v, rest) := by
  unfold readI32 encInt32
  rw [show (4 : Nat) = (natToLe4 (v % 4294967296).toNat).length from rfl, readBytes_append]
  have h0 : 0 ≤ v % 4294967296 := Int.emod_nonneg v (by norm_num)
  have hlt : v % 4294967296 < 4294967296 := Int.emod_lt_of_pos v (by norm_num)
  have hcast : ((v % 4294967296).toNat : Int) = v % 4294967296 := Int.toNat_of_nonneg h0
  have hm : (v % 4294967296).toNat < 4294967296 := by omega
  simp only [Bind.bind, Except.bind, leToNat_natToLe4 _ hm]
  have hval : decInt32 (v % 4294967296).toNat = v := by
    unfold decInt32
    split <;> omega
  rw [hval]

theorem readI64_encInt64 (v : Int) (rest : List Nat)
    (h1 : -9223372036854775808 ≤ v) (h2 : v < 9223372036854775808) :
    readI64 (encInt64 v ++ rest) = .ok (v, rest) := by
  unfold readI64 encInt64
  rw [show (8 : Nat) = (natToLe8 (v % 18446744073709551616).toNat).length from rfl,
    readBytes_append]
  have h0 : 0 ≤ v % 18446744073709551616 := Int.emod_nonneg v (by norm_num)
  have hlt : v % 18446744073709551616 < 18446744073709551616 :=
    Int.emod_lt_of_pos v (by norm_num)
  have hcast : ((v % 18446744073709551616).toNat : Int) = v % 18446744073709551616 :=
    Int.toNat_of_nonneg h0
  have hm : (v % 18446744073709551616).toNat < 18446744073709551616 := by omega
  simp only [Bind.bind, Except.bind, leToNat_natToLe8 _ hm]
  have hval : decInt64 (v % 18446744073709551616).toNat = v := by
    unfold decInt64
    split <;> omega
  rw [hval]

theorem readCString_append (k rest : List Nat)
    (h : k.any (fun b => b == 0) = false) :
    readCString (k ++ 0 :: rest) = .ok (k, rest) := by
  induction k with
  | nil => rfl
  | cons b k' ih =>
    simp only [List.any_cons, Bool.or_eq_false_iff, beq_eq_false_iff_ne] at h
    cases b with
    | zero => exact absurd rfl h.1
    | succ b' =>
      show Except.bind (readCString (k' ++ 0 :: rest)) _ = _
      rw [ih (by simpa using h.2)]
      rfl

theorem readStrPayload_enc (s p rest : List Nat)
    (henc : encStrPayload s = .ok p) :
    readStrPayload (p ++ rest) = .ok (s, rest) := by
  unfold encStrPayload at henc
  split at henc
  · next hlt =>
    cases henc
    unfold readStrPayload
    rw [List.append_assoc, List.append_assoc,
      readLength_frame (s.length + 1) _ (by omega)]
    simp only [Bind.bind, Except.bind]
    rw [if_neg (by omega)]
    have : s.length + 1 - 1 = s.length := by omega
    rw [this, show s ++ ([0] ++ rest) = s ++ (0 :: rest) from rfl, readBytes_append]
    rfl
  · cases henc

theorem fromByte_toByte (sub : BinSubtype) :
    BinSubtype.fromByte sub.toByte = some sub := by
  cases sub <;> rfl

theorem tagOf_ne_zero (v : BVal) : tagOf v ≠ 0 := by
  cases v <;> simp [tagOf]

theorem natDigitsAux_mem (fuel : Nat) :
    ∀ n, n < fuel → ∀ b ∈ natDigitsAux fuel n, 48 ≤ b ∧ b ≤ 57 := by
  induction fuel with
  | zero => intro n h; omega
  | succ f ih =>
    intro n hn b hb
    simp only [natDigitsAux] at hb
    split at hb
    · next h =>
      simp only [List.mem_singleton] at hb
      omega
    · next h =>
      rw [List.mem_append] at hb
      rcases hb with hb | hb
      · exact ih (n / 10) (by omega) b hb
      · simp only [List.mem_singleton] at hb
        omega

theorem natDigits_mem (n : Nat) : ∀ b ∈ natDigits n, 48 ≤ b ∧ b ≤ 57 :=
  natDigitsAux_mem (n + 1) n (by omega)

theorem natDigits_no_zero (n : Nat) :
    (natDigits n).any (fun b => b == 0) = false := by
  rw [List.any_eq_false]
  intro b hb
  have := natDigits_mem n b hb
  simp only [beq_iff_eq]
  omega

theorem arrEntriesFrom_values (elems : BElems) (i : Nat) :
    (arrEntriesFrom i elems).values = elems := by
  match elems with
  | .nil => rfl
  | .cons v rest =>
    show (BEntries.cons (natDigits i) v (arrEntriesFrom (i + 1) rest)).values = _
    rw [BEntries.values, arrEntriesFrom_values rest (i + 1)]

mutual

theorem rtVal (v : BVal) (p rest : List Nat) (fuel : Nat) (hwf : wfVal v = true)
    (henc : encVal v = .ok p) (hfuel : (p ++ rest).length < fuel) :
    decVal fuel (tagOf v) (p ++ rest) = .ok (v, rest) := by
  cases fuel with
  | zero => exact absurd hfuel (Nat.not_lt_zero _)
  | succ f =>
    cases v with
    | double bits =>
      simp only [encVal, Except.ok.injEq] at henc
      subst henc
      simp only [wfVal, decide_eq_true_eq] at hwf
      simp only [tagOf, decVal]
      rw [show (8 : Nat) = (natToLe8 bits).length from rfl, readBytes_append]
      simp [Bind.bind, Except.bind, leToNat_natToLe8 bits hwf]
    | str s =>
      simp only [encVal] at henc
      simp only [tagOf, decVal, Bind.bind, Except.bind]
      rw [readStrPayload_enc s p rest henc]
    | doc es =>
      simp only [encVal, Bind.bind, Except.bind] at henc
      cases hb : encEntries es with
      | error e => simp [hb] at henc
      | ok b =>
        simp only [hb] at henc
        unfold mkDocFrame at henc
        split at henc
        · next hlen =>
          simp only [Except.ok.injEq] at henc
          subst henc
          simp only [wfVal] at hwf
          have hfe : (b ++ 0 :: rest).length < f := by
            simp only [List.length_append, List.length_cons] at hfuel ⊢
            simp only [natToLe4_length] at hfuel
            omega
          simp only [tagOf, decVal, Bind.bind, Except.bind]
          rw [List.append_assoc, List.append_assoc,
            show b ++ ([0] ++ rest) = b ++ 0 :: rest from rfl]
          simp only [readLength_frame (b.length + 5) (b ++ 0 :: rest) (by omega)]
          simp only [rtEntries es b rest f hwf hb hfe]
          rw [if_pos (by simp [List.length_append, natToLe4_length]; omega)]
        · cases henc
    | arr elems =>
      simp only [encVal, Bind.bind, Except.bind] at henc
      cases hb : encArrElems 0 elems with
      | error e => simp [hb] at henc
      | ok b =>
        simp only [hb] at henc
        unfold mkDocFrame at henc
        split at henc
        · next hlen =>
          simp only [Except.ok.injEq] at henc
          subst henc
          simp only [wfVal] at hwf
          have hfe : (b ++ 0 :: rest).length < f := by
            simp only [List.length_append, List.length_cons] at hfuel ⊢
            simp only [natToLe4_length] at hfuel
            omega
          simp only [tagOf, decVal, Bind.bind, Except.bind]
          rw [List.append_assoc, List.append_assoc,
            show b ++ ([0] ++ rest) = b ++ 0 :: rest from rfl]
          simp only [readLength_frame (b.length + 5) (b ++ 0 :: rest) (by omega)]
          simp only [rtElems elems 0 b rest f hwf hb hfe]
          rw [if_pos (by simp [List.length_append, natToLe4_length]; omega)]
          rw [arrEntriesFrom_values elems 0]
        · cases henc
    | binary sub data =>
      simp only [encVal] at henc
      split at henc
      · next hlen =>
        simp only [Except.ok.injEq] at henc
        subst henc
        simp only [tagOf, decVal, Bind.bind, Except.bind]
        rw [List.append_assoc, List.append_assoc,
          readLength_frame data.length _ (by omega)]
        rw [show [sub.toByte] ++ (data ++ rest) = sub.toByte :: (data ++ rest) from rfl]
        simp only [readByte]
        rw [fromByte_toByte sub]
        simp only [Bind.bind, Except.bind]
        rw [readBytes_append]
      · cases henc
    | undefined =>
      simp only [encVal, Except.ok.injEq] at henc
      subst henc
      simp [tagOf, decVal]
    | oid b =>
      simp only [encVal, Except.ok.injEq] at henc
      subst henc
      simp only [wfVal, Bool.and_eq_true, beq_iff_eq] at hwf
      simp only [tagOf, decVal, Bind.bind, Except.bind]
      rw [show (12 : Nat) = b.length by omega, readBytes_append]
    | boolean bv =>
      simp only [encVal, Except.ok.injEq] at henc
      subst henc
      cases bv <;> simp [tagOf, decVal, readByte, Bind.bind, Except.bind]
    | utcDatetime ms =>
      simp only [encVal, Except.ok.injEq] at henc
      subst henc
      simp only [wfVal, Bool.and_eq_true, decide_eq_true_eq] at hwf
      simp only [tagOf, decVal, Bind.bind, Except.bind]
      rw [readI64_encInt64 ms rest hwf.1 hwf.2]
    | nullValue =>
      simp only [encVal, Except.ok.injEq] at henc
      subst henc
      simp [tagOf, decVal]
    | code s =>
      simp only [encVal] at henc
      simp only [tagOf, decVal, Bind.bind, Except.bind]
      rw [readStrPayload_enc s p rest henc]
    | codeWithScope s scope =>
      simp only [encVal, Bind.bind, Except.bind] at henc
      cases hsp : encStrPayload s with
      | error e => simp [hsp] at henc
      | ok sp =>
        simp only [hsp] at henc
        cases hb : encEntries scope with
        | error e => simp [hb] at henc
        | ok b =>
          simp only [hb] at henc
          cases hdp : mkDocFrame b with
          | error e => simp [hdp] at henc
          | ok dp =>
            simp only [hdp] at henc
            split at henc
            · next htot =>
              simp only [Except.ok.injEq] at henc
              subst henc
              unfold mkDocFrame at hdp
              split at hdp
              · next hlen =>
                simp only [Except.ok.injEq] at hdp
                have hdplen : dp.length = b.length + 5 := by
                  rw [← hdp]
                  simp only [List.length_append, List.length_cons, List.length_nil,
                    natToLe4_length]
                  omega
                simp only [wfVal, Bool.and_eq_true] at hwf
                have hfe : (b ++ 0 :: rest).length < f := by
                  simp only [List.length_append, List.length_cons, natToLe4_length,
                    hdplen] at hfuel ⊢
                  omega
                simp only [tagOf, decVal, Bind.bind, Except.bind]
                rw [List.append_assoc, List.append_assoc]
                simp only [readLength_frame (4 + sp.length + dp.length)
                  (sp ++ (dp ++ rest)) (by omega)]
                simp only [readStrPayload_enc s sp (dp ++ rest) hsp]
                rw [show dp ++ rest = natToLe4 (b.length + 5) ++ (b ++ 0 :: rest) by
                  rw [← hdp]; simp [List.append_assoc]]
                simp only [readLength_frame (b.length + 5) (b ++ 0 :: rest) (by omega)]
                simp only [rtEntries scope b rest f hwf.2 hb hfe]
                rw [if_pos (by
                  refine ⟨?_, ?_⟩ <;>
                    simp [List.length_append, List.length_cons, natToLe4_length,
                      hdplen] <;> omega)]
              · cases hdp
            · cases henc
    | int32 v' =>
      simp only [encVal, Except.ok.injEq] at henc
      subst henc
      simp only [wfVal, Bool.and_eq_true, decide_eq_true_eq] at hwf
      simp only [tagOf, decVal, Bind.bind, Except.bind]
      rw [readI32_encInt32 v' rest hwf.1 hwf.2]
    | timestamp i t =>
      simp only [encVal, Except.ok.injEq] at henc
      subst henc
      simp only [wfVal, Bool.and_eq_true, decide_eq_true_eq] at hwf
      simp only [tagOf, decVal, Bind.bind, Except.bind]
      rw [List.append_assoc]
      simp only [readI32_encInt32 i (encInt32 t ++ rest) hwf.1.1 hwf.1.2]
      simp only [readI32_encInt32 t rest hwf.2.1 hwf.2.2]
    | int64 v' =>
      simp only [encVal, Except.ok.injEq] at henc
      subst henc
      simp only [wfVal, Bool.and_eq_true, decide_eq_true_eq] at hwf
      simp only [tagOf, decVal, Bind.bind, Except.bind]
      rw [readI64_encInt64 v' rest hwf.1 hwf.2]
termination_by sizeOf v

theorem rtEntries (es : BEntries) (b rest : List Nat) (fuel : Nat)
    (hwf : wfEntries es = true) (henc : encEntries es = .ok b)
    (hfuel : (b ++ 0 :: rest).length < fuel) :
    decEntries fuel (b ++ 0 :: rest) = .ok (es, rest) := by
  cases fuel with
  | zero => exact absurd hfuel (Nat.not_lt_zero _)
  | succ f =>
    cases es with
    | nil =>
      simp only [encEntries, Except.ok.injEq] at henc
      subst henc
      simp [decEntries, readByte, Bind.bind, Except.bind]
    | cons k v es' =>
      simp only [encEntries] at henc
      split at henc
      · cases henc
      · next hk0 =>
        have hkno : k.any (fun b => b == 0) = false :=
          Bool.eq_false_iff.mpr hk0
        simp only [Bind.bind, Except.bind] at henc
        cases hp : encVal v with
        | error e => simp [hp] at henc
        | ok pv =>
          simp only [hp] at henc
          cases hr : encEntries es' with
          | error e => simp [hr] at henc
          | ok r =>
            simp only [hr] at henc
            simp only [Except.ok.injEq] at henc
            subst henc
            simp only [wfEntries, Bool.and_eq_true] at hwf
            have hfv : (pv ++ (r ++ 0 :: rest)).length < f := by
              simp only [List.length_append, List.length_cons] at hfuel ⊢
              omega
            have hfr : (r ++ 0 :: rest).length < f := by
              simp only [List.length_append, List.length_cons] at hfuel ⊢
              omega
            simp only [decEntries, Bind.bind, Except.bind]
            simp only [List.append_assoc]
            rw [show [tagOf v] ++ (k ++ ([0] ++ (pv ++ (r ++ 0 :: rest))))
                = tagOf v :: (k ++ (0 :: (pv ++ (r ++ 0 :: rest)))) from rfl]
            simp only [readByte]
            rw [if_neg (tagOf_ne_zero v)]
            simp only [readCString_append k _ hkno]
            simp only [rtVal v pv (r ++ 0 :: rest) f hwf.1.2 hp hfv]
            simp only [rtEntries es' r rest f hwf.2 hr hfr]
termination_by sizeOf es

theorem rtElems (elems : BElems) (i : Nat) (b rest : List Nat) (fuel : Nat)
    (hwf : wfElems elems = true) (henc : encArrElems i elems = .ok b)
    (hfuel : (b ++ 0 :: rest).length < fuel) :
    decEntries fuel (b ++ 0 :: rest) = .ok (arrEntriesFrom i elems, rest) := by
  cases fuel with
  | zero => exact absurd hfuel (Nat.not_lt_zero _)
  | succ f =>
    cases elems with
    | nil =>
      simp only [encArrElems, Except.ok.injEq] at henc
      subst henc
      simp [decEntries, readByte, Bind.bind, Except.bind, arrEntriesFrom]
    | cons v es' =>
      simp only [encArrElems, Bind.bind, Except.bind] at henc
      cases hp : encVal v with
      | error e => simp [hp] at henc
      | ok pv =>
        simp only [hp] at henc
        cases hr : encArrElems (i + 1) es' with
        | error e => simp [hr] at henc
        | ok r =>
          simp only [hr] at henc
          simp only [Except.ok.injEq] at henc
          subst henc
          simp only [wfElems, Bool.and_eq_true] at hwf
          have hfv : (pv ++ (r ++ 0 :: rest)).length < f := by
            simp only [List.length_append, List.length_cons] at hfuel ⊢
            omega
          have hfr : (r ++ 0 :: rest).length < f := by
            simp only [List.length_append, List.length_cons] at hfuel ⊢
            omega
          simp only [decEntries, Bind.bind, Except.bind]
          simp only [List.append_assoc]
          rw [show [tagOf v] ++ (natDigits i ++ ([0] ++ (pv ++ (r ++ 0 :: rest))))
              = tagOf v :: (natDigits i ++ (0 :: (pv ++ (r ++ 0 :: rest)))) from rfl]
          simp only [readByte]
          rw [if_neg (tagOf_ne_zero v)]
          simp only [readCString_append (natDigits i) _ (natDigits_no_zero i)]
          simp only [rtVal v pv (r ++ 0 :: rest) f hwf.1 hp hfv]
          simp only [rtElems es' (i + 1) r rest f hwf.2 hr hfr]
          simp only [arrEntriesFrom]
termination_by sizeOf elems

end

end Codec

/-- Claim C1: for every well-formed document of the BSON value model
(nested documents/arrays, every scalar variant, empty documents/arrays
included), decoding the encoding yields exactly the original document —
entry order preserved, numeric types preserved exactly (int32, int64 and
the 64-bit float are distinct constructors carried through encoding and
decoding without coercion). -/
theorem c1_bson_round_trip (d : Codec.BEntries) (bs : List Nat)
    (hwf : Codec.wfEntries d = true) (henc : Codec.encode d = .ok bs) :
    Codec.decode bs = .ok d := by
  unfold Codec.encode at henc
  simp only [Bind.bind, Except.bind] at henc
  cases hb : Codec.encEntries d with
  | error e => simp [hb] at henc
  | ok b =>
    simp only [hb] at henc
    unfold Codec.mkDocFrame at henc
    split at henc
    · next hlen =>
      simp only [Except.ok.injEq] at henc
      subst henc
      unfold Codec.decode
      simp only [Bind.bind, Except.bind]
      rw [List.append_assoc, show b ++ ([0] : List Nat) = b ++ 0 :: ([] : List Nat) from rfl]
      simp only [Codec.readLength_frame (b.length + 5) (b ++ 0 :: ([] : List Nat))
        (by omega)]
      have hfe : (b ++ 0 :: ([] : List Nat)).length
          < (Codec.natToLe4 (b.length + 5) ++ (b ++ 0 :: ([] : List Nat))).length := by
        simp [List.length_append, Codec.natToLe4_length]
      simp only [Codec.rtEntries d b [] _ hwf hb hfe]
      rw [if_pos (by
        refine ⟨?_, by trivial⟩
        simp only [List.length_append, List.length_cons, List.length_nil,
          Codec.natToLe4_length]
        omega)]
    · cases henc

/-- Witness for C1: the spec's example document round-trips through its
concrete encoding. -/
theorem c1_bson_round_trip_witness :
    Codec.wfEntries Codec.exDoc = true
    ∧ Codec.encode Codec.exDoc = .ok Codec.exBytes
    ∧ Codec.decode Codec.exBytes = .ok Codec.exDoc := by
  refine ⟨by decide, by rfl, ?_⟩
  exact c1_bson_round_trip Codec.exDoc Codec.exBytes (by decide) (by rfl)

/-- Witness for C8 at the concrete byte sequence from the spec. -/
theorem c8_oid_hex_format_witness :
    oidHexDisplay [0, 1, 2, 3, 4, 5, 6, 7, 8, 9, 10, 11]
      = "000102030405060708090a0b" :=
  (c8_oid_hex_format [0, 1, 2, 3, 4, 5, 6, 7, 8, 9, 10, 11]
    (by decide) (by decide)).2.2.2

/-- Witness for C5 at concrete hints. -/
theorem c5_hints_merge_witness :
    (QueryHints.order_by
        ⟨[("$orderBy", Bson.document [("y", Bson.i32 1)]), ("$fields", Bson.document [])]⟩
        "x").desc
      = some ⟨[("$orderBy", Bson.document [("y", Bson.i32 1), ("x", Bson.i32 (-1))]),
              ("$fields", Bson.document [])]⟩ := by
  have := (c5_hints_merge
    ⟨[("$orderBy", Bson.document [("y", Bson.i32 1)]), ("$fields", Bson.document [])]⟩
    "x" [("y", Bson.i32 1)] [] rfl rfl (by decide) (by decide)).1
  simpa using this

end EjdbRs
